import Mathlib

/-!
# Timekeeper web application: a verification development

A shallow embedding of the client-side logic of the Timekeeper demo app
(`script.js`), together with theorems about its behaviour.

Modelling conventions:

* JS strings are modelled as Lean `String` values; character-level work
  happens on `String.data : List Char`.
* JS numbers that are known to be integers (minute offsets, calendar
  fields, parsed day numbers) are modelled as `ℤ`; `NaN` propagation is
  modelled with `Option ℤ` (`none` = `NaN`), with comparison/min/subtraction
  wrappers mirroring the IEEE `NaN` rules used by the source.
* General JS numbers (hourly rates, summed minutes) are modelled as exact
  rationals represented by unreduced fraction pairs (`JSNum`), an exact
  idealisation of float arithmetic.
* JS `Date` values are modelled by their (year, month, day) components in a
  single fixed timezone, so the local-time accessors (`getDate`, `getMonth`,
  `getFullYear`, `toTimeString`) and the UTC-based `toISOString` agree.
  The two-digit-year rule of the `Date(year, month, day)` constructor
  (years 0..99 map to 1900..1999) is modelled explicitly.
-/

/-- The character for a decimal digit `n < 10` (`'0'`–`'9'`). -/
def digitChar (n : ℕ) : Char := Char.ofNat (48 + n)

/-- Whether a character is a decimal digit. -/
def isDigitChar (c : Char) : Bool := 48 ≤ c.toNat && c.toNat ≤ 57

/-- Fuel-driven decimal representation helper (most significant digit first). -/
def natReprAux : ℕ → ℕ → List Char
  | 0, _ => []
  | fuel + 1, n =>
    if n < 10 then [digitChar n] else natReprAux fuel (n / 10) ++ [digitChar (n % 10)]

/-- Decimal representation of a natural number, as produced by JS `String(n)`. -/
def natRepr (n : ℕ) : List Char := natReprAux (n + 1) n

/-- Decimal representation of an integer, as produced by JS `String(n)`. -/
def intRepr (n : ℤ) : List Char :=
  if n < 0 then '-' :: natRepr n.natAbs else natRepr n.toNat

/-- JS `String.prototype.padStart(len, c)`. -/
def padStart (len : ℕ) (c : Char) (s : List Char) : List Char :=
  List.replicate (len - s.length) c ++ s

/-- JS `String.prototype.split(sep)` for a one-character separator. -/
def splitOnChar (sep : Char) : List Char → List (List Char)
  | [] => [[]]
  | c :: rest =>
    if c = sep then [] :: splitOnChar sep rest
    else
      match splitOnChar sep rest with
      | [] => [[c]]
      | p :: ps => (c :: p) :: ps

/-- Value of a list of decimal digit characters (used by `toNumber`). -/
def digitsVal (l : List Char) : ℕ := l.foldl (fun a c => a * 10 + (c.toNat - 48)) 0

/-- The JS `Number(string)` coercion, on its signed decimal-integer fragment
(the only shapes produced and consumed by the app's clock strings).
`none` models `NaN`; `Number("") = 0` as in JS. -/
def toNumber (l : List Char) : Option ℤ :=
  match l with
  | [] => some 0
  | '-' :: rest =>
    if !rest.isEmpty && rest.all isDigitChar then some (-(digitsVal rest : ℤ)) else none
  | '+' :: rest =>
    if !rest.isEmpty && rest.all isDigitChar then some ((digitsVal rest : ℤ)) else none
  | _ => if l.all isDigitChar then some ((digitsVal l : ℤ)) else none

/-- Source `timeToMinutes(timeStr)`: split on `':'`, convert both fields with
`Number`, return `h * 60 + m`.  `none` models a `NaN` result (which arises
when a field is not numeric, or when the split yields a single field so that
`m` is `undefined`). -/
def timeToMinutes (timeStr : String) : Option ℤ :=
  match splitOnChar ':' timeStr.data with
  | h :: m :: _ =>
    match toNumber h, toNumber m with
    | some hv, some mv => some (hv * 60 + mv)
    | _, _ => none
  | _ => none

/-- Source `minutesToTime(mins)`: `Math.floor(mins / 60)` and `mins % 60`
(JS `%` keeps the dividend's sign, hence `Int.tmod`), zero padded. -/
def minutesToTime (mins : ℤ) : String :=
  String.mk (padStart 2 '0' (intRepr (Int.fdiv mins 60)) ++
    ':' :: padStart 2 '0' (intRepr (Int.tmod mins 60)))

/-- The canonical clock string for hour `h` and minute `m` (zero padded). -/
def clockStr (h m : ℕ) : String :=
  String.mk (padStart 2 '0' (natRepr h) ++ ':' :: padStart 2 '0' (natRepr m))

/-- A valid `"HH:MM"` clock string: two zero-padded fields with
hours `00`–`23` and minutes `00`–`59`. -/
def IsValidClock (s : String) : Prop :=
  ∃ h m : ℕ, h < 24 ∧ m < 60 ∧ s = clockStr h m

/-- JS `a > b` (false when either side is `NaN`). -/
def jsGt : Option ℤ → Option ℤ → Bool
  | some a, some b => decide (b < a)
  | _, _ => false

/-- JS `a < 0` (false when `a` is `NaN`). -/
def jsLtZero : Option ℤ → Bool
  | some a => decide (a < 0)
  | none => false

/-- JS `Math.min(a, b)` (`NaN` when either side is `NaN`). -/
def jsMin : Option ℤ → Option ℤ → Option ℤ
  | some a, some b => some (min a b)
  | _, _ => none

/-- JS `a - b` (`NaN` when either side is `NaN`). -/
def jsSub : Option ℤ → Option ℤ → Option ℤ
  | some a, some b => some (a - b)
  | _, _ => none

/-- Source `computeWorkedMinutes(scheduledStart, scheduledEnd, actualIn, actualOut)`:
late deduction `max(0, ai - ss)`, effective end `Math.min(ao, se)`,
`minutes = effectiveEnd - ss - deduction`, floored at `0`. -/
def computeWorkedMinutes (scheduledStart scheduledEnd actualIn actualOut : String) :
    Option ℤ :=
  let ss := timeToMinutes scheduledStart
  let se := timeToMinutes scheduledEnd
  let ai := timeToMinutes actualIn
  let ao := timeToMinutes actualOut
  let deduction := if jsGt ai ss then jsSub ai ss else some 0
  let effectiveEnd := jsMin ao se
  let minutes := jsSub (jsSub effectiveEnd ss) deduction
  if jsLtZero minutes then some 0 else minutes

/-- A JS `Date` value, by its calendar components: `year = getFullYear()`,
`month = getMonth()` (0-based, `0`–`11`), `day = getDate()` (1-based). -/
structure JSDate where
  year : ℤ
  month : ℤ
  day : ℤ
deriving DecidableEq

/-- Gregorian leap-year rule (as implemented by JS `Date`). -/
def isLeapYear (y : ℤ) : Bool := (y % 4 == 0 && y % 100 != 0) || y % 400 == 0

/-- Number of days in 0-based month `m` of year `y`; the source computes this
as `new Date(y, m + 1, 0).getDate()`. -/
def daysInMonth (y m : ℤ) : ℤ :=
  if m = 1 then (if isLeapYear y then 29 else 28)
  else if m = 3 ∨ m = 5 ∨ m = 8 ∨ m = 10 then 30
  else 31

/-- The year actually stored by the `Date(year, month, day)` constructor:
arguments `0`–`99` denote `1900`–`1999` (ECMA-262 `MakeFullYear`). -/
def jsDateYear (y : ℤ) : ℤ := if 0 ≤ y ∧ y ≤ 99 then 1900 + y else y

/-- The year field of `toISOString()`: four digits for `0`–`9999`, otherwise a
sign and six digits (expanded years). -/
def isoYearChars (y : ℤ) : List Char :=
  if 0 ≤ y ∧ y ≤ 9999 then padStart 4 '0' (natRepr y.toNat)
  else if y < 0 then '-' :: padStart 6 '0' (natRepr y.natAbs)
  else '+' :: padStart 6 '0' (natRepr y.toNat)

/-- The slice `toISOString().slice(0, 10)` of the date with year `y`, 0-based month
`m0` in `0`–`11` and in-range day `d` (`1 ≤ d ≤ daysInMonth`), in the fixed
timezone of this model. -/
def isoOfYMD (y m0 d : ℤ) : String :=
  String.mk (isoYearChars y ++
    '-' :: padStart 2 '0' (intRepr (m0 + 1)) ++
    '-' :: padStart 2 '0' (intRepr d))

/-- Source `getPayPeriodStart(dateObj)` with the pay settings passed explicitly
(the source reads `settings.startDays` from storage): sort the start days
ascending, scan for the largest one `≤ day`; on success clamp it into the
current month, otherwise apply the largest start day to the previous month,
clamped.  `none` models the `RangeError` thrown by `toISOString()` on the
invalid date produced when `startDays` is empty. -/
def getPayPeriodStart (startDays0 : List ℤ) (dateObj : JSDate) : Option String :=
  let startDays := List.insertionSort (· ≤ ·) startDays0
  let day := dateObj.day
  let month := dateObj.month
  let year := dateObj.year
  let chosenDay := startDays.foldl (fun acc sd => if sd ≤ day then some sd else acc) none
  match chosenDay with
  | none =>
    let prevMonth := (month - 1 + 12) % 12
    let prevYear := if month = 0 then year - 1 else year
    match startDays.getLast? with
    | none => none
    | some lastDay =>
      let daysInPrevMonth := daysInMonth prevYear prevMonth
      some (isoOfYMD (jsDateYear prevYear) prevMonth (min lastDay daysInPrevMonth))
  | some chosen =>
    let dim := daysInMonth year month
    some (isoOfYMD (jsDateYear year) month (min chosen dim))

/-- Largest element of a list of integers (`none` on the empty list). -/
def listMax : List ℤ → Option ℤ
  | [] => none
  | x :: xs =>
    match listMax xs with
    | none => some x
    | some m => some (max x m)

/-- The pay-period start date as described by the specification: among the
configured start days that are `≤ day`, pick the largest and clamp it into the
date's month; if none qualify, apply the largest configured start day to the
previous month, clamped to that month's last valid day. -/
def specPayPeriodStart (startDays : List ℤ) (d : JSDate) : Option String :=
  match listMax (startDays.filter (fun sd => decide (sd ≤ d.day))) with
  | some chosen => some (isoOfYMD d.year d.month (min chosen (daysInMonth d.year d.month)))
  | none =>
    match listMax startDays with
    | none => none
    | some lastDay =>
      let prevMonth := (d.month - 1 + 12) % 12
      let prevYear := if d.month = 0 then d.year - 1 else d.year
      some (isoOfYMD prevYear prevMonth (min lastDay (daysInMonth prevYear prevMonth)))


/-- An exact rational, represented as an unreduced fraction.  This is the
model of a general JS number (float arithmetic idealised as exact rational
arithmetic).  Values are compared through `toFixed2Str`, never through
representatives, so non-canonical fractions are harmless. -/
structure JSNum where
  num : ℤ
  den : ℤ
deriving DecidableEq

/-- The JS number `0`. -/
def jsnZero : JSNum := ⟨0, 1⟩

/-- The JS number for an integer. -/
def JSNum.ofInt (n : ℤ) : JSNum := ⟨n, 1⟩

/-- JS `a + b` on exact rationals. -/
def jsnAdd (a b : JSNum) : JSNum := ⟨a.num * b.den + b.num * a.den, a.den * b.den⟩

/-- JS `a * b` on exact rationals. -/
def jsnMul (a b : JSNum) : JSNum := ⟨a.num * b.num, a.den * b.den⟩

/-- JS `a / b` on exact rationals. -/
def jsnDiv (a b : JSNum) : JSNum := ⟨a.num * b.den, a.den * b.num⟩

/-- The rounded hundredths of `|x|`: `⌊|x| * 100 + 1/2⌋`, computed on the
fraction representation. -/
def toFixed2Hundredths (x : JSNum) : ℕ :=
  (200 * x.num.natAbs + x.den.natAbs) / (2 * x.den.natAbs)

/-- JS `x.toFixed(2)` (ECMA-262: extract the sign, then round the magnitude
to the nearest hundredth, ties upward). -/
def toFixed2Str (x : JSNum) : String :=
  let n := toFixed2Hundredths x
  String.mk ((if x.num * x.den < 0 then ['-'] else []) ++
    natRepr (n / 100) ++ '.' :: padStart 2 '0' (natRepr (n % 100)))

/-- The number `x` rounded to two decimals (the specification's
"2-decimal rounding" as a number rather than a string). -/
def toFixed2Num (x : JSNum) : JSNum :=
  ⟨(if x.num * x.den < 0 then -1 else 1) * (toFixed2Hundredths x : ℤ), 100⟩

/-- Source `formatHours(mins)`: `(mins / 60).toFixed(2)`. -/
def formatHours (mins : JSNum) : String := toFixed2Str (jsnDiv mins (JSNum.ofInt 60))


/-- An account record.  `hourlyRate`, `shiftStart` and `shiftEnd` are absent
(`none`) on the seeded admin account. -/
structure Account where
  username : String
  password : String
  role : String
  hourlyRate : Option JSNum
  shiftStart : Option String
  shiftEnd : Option String
deriving DecidableEq

/-- A log entry as appended by punch-out.  `minutesWorked` is `none` when the
stored value is the JSON serialisation of `NaN` (`null`), which JS arithmetic
subsequently treats as `0`. -/
structure LogEntry where
  username : String
  date : String
  punchIn : String
  punchOut : String
  minutesWorked : Option JSNum
  payPeriodStart : String
deriving DecidableEq

/-- An open punch: `currentPunch[username] = { date, punchIn }`. -/
structure PunchRecord where
  date : String
  punchIn : String
deriving DecidableEq

/-- The `paySettings` document. -/
structure PaySettings where
  startDays : List ℤ
deriving DecidableEq

/-- The four persisted documents of the app. -/
structure Store where
  accounts : List Account
  paySettings : PaySettings
  logs : List LogEntry
  currentPunch : List (String × PunchRecord)
deriving DecidableEq

/-- Lookup in a JS object modelled as an insertion-ordered association list. -/
def getAssoc {V : Type} : List (String × V) → String → Option V
  | [], _ => none
  | (k, v) :: rest, key => if k = key then some v else getAssoc rest key

/-- JS property assignment: update in place, or append a new key at the end
(insertion order, as `Object.keys` preserves it for non-index keys). -/
def setAssoc {V : Type} : List (String × V) → String → V → List (String × V)
  | [], key, v => [(key, v)]
  | (k, w) :: rest, key, v =>
    if k = key then (k, v) :: rest else (k, w) :: setAssoc rest key v

/-- JS `delete obj[key]`. -/
def delAssoc {V : Type} (m : List (String × V)) (key : String) : List (String × V) :=
  m.filter (fun p => p.1 != key)

/-- The current instant, as the punch handlers see it: a `Date` plus the
`"HH:MM"` slice of `toTimeString()`. -/
structure NowInfo where
  dateObj : JSDate
  timeStr : String
deriving DecidableEq

/-- The string `new Date().toISOString().slice(0, 10)` for the current instant. -/
def todayStr (now : NowInfo) : String :=
  isoOfYMD now.dateObj.year now.dateObj.month now.dateObj.day

/-- Outcome of the punch-out click handler: the rejection alert
(`'No punch in record found for today.'`), an uncaught exception from
`getPayPeriodStart` (empty `startDays`), or a successful log append. -/
inductive PunchOutResult where
  | noPunchIn : PunchOutResult
  | threw : PunchOutResult
  | success : LogEntry → PunchOutResult
deriving DecidableEq

/-- The punch-out click handler.  `currentUser` is the account captured at
login.  Requires an open punch dated today; otherwise it alerts and leaves
every document untouched.  On success it appends a `LogEntry` and deletes the
open punch. -/
def punchOut (store : Store) (currentUser : Account) (now : NowInfo) :
    Store × PunchOutResult :=
  let timeOutStr := now.timeStr
  let today := todayStr now
  match getAssoc store.currentPunch currentUser.username with
  | none => (store, PunchOutResult.noPunchIn)
  | some punchRecord =>
    if punchRecord.date ≠ today then (store, PunchOutResult.noPunchIn)
    else
      let scheduledStart := currentUser.shiftStart.getD "09:00"
      let scheduledEnd := currentUser.shiftEnd.getD "17:00"
      let minutesWorked :=
        computeWorkedMinutes scheduledStart scheduledEnd punchRecord.punchIn timeOutStr
      match getPayPeriodStart store.paySettings.startDays now.dateObj with
      | none => (store, PunchOutResult.threw)
      | some payPeriodStart =>
        let entry : LogEntry :=
          ⟨currentUser.username, today, punchRecord.punchIn, timeOutStr,
            minutesWorked.map JSNum.ofInt, payPeriodStart⟩
        ({ store with
            logs := store.logs ++ [entry],
            currentPunch := delAssoc store.currentPunch currentUser.username },
          PunchOutResult.success entry)

/-- The employee-table delete handler: look up `accounts[idx]`; if it exists
and the admin confirms, drop all log entries with that username and splice the
account out. -/
def deleteEmployee (store : Store) (idx : ℕ) (confirmDelete : Bool) : Store :=
  match store.accounts[idx]? with
  | none => store
  | some user =>
    if confirmDelete then
      { store with
          logs := store.logs.filter (fun log => log.username != user.username),
          accounts := store.accounts.eraseIdx idx }
    else store

/-- JS whitespace (the ASCII fragment relevant to this app's inputs). -/
def isWsChar (c : Char) : Bool := c = ' ' || c = '\t' || c = '\n' || c = '\r'

/-- JS `String.prototype.trim()`. -/
def trimChars (l : List Char) : List Char :=
  ((l.dropWhile isWsChar).reverse.dropWhile isWsChar).reverse

/-- Hexadecimal digit test, for `parseInt`'s `0x` forms. -/
def isHexDigitChar (c : Char) : Bool :=
  isDigitChar c || (65 ≤ c.toNat && c.toNat ≤ 70) || (97 ≤ c.toNat && c.toNat ≤ 102)

/-- Value of a hexadecimal digit character. -/
def hexVal (c : Char) : ℕ :=
  if c.toNat ≤ 57 then c.toNat - 48 else if c.toNat ≤ 70 then c.toNat - 55 else c.toNat - 87

/-- Value of a list of hexadecimal digit characters. -/
def hexDigitsVal (l : List Char) : ℕ := l.foldl (fun a c => a * 16 + hexVal c) 0

/-- The unsigned part of JS `parseInt` with no radix argument: an optional
`0x`/`0X` prefix selects base 16; digits are consumed greedily and trailing
garbage is ignored; no digits means `NaN` (`none`). -/
def parseIntUnsigned (l : List Char) : Option ℕ :=
  match l with
  | '0' :: 'x' :: rest =>
    let ds := rest.takeWhile isHexDigitChar
    if ds.isEmpty then none else some (hexDigitsVal ds)
  | '0' :: 'X' :: rest =>
    let ds := rest.takeWhile isHexDigitChar
    if ds.isEmpty then none else some (hexDigitsVal ds)
  | _ =>
    let ds := l.takeWhile isDigitChar
    if ds.isEmpty then none else some (digitsVal ds)

/-- JS `parseInt(s)` (radix unspecified): trim, optional sign, then
`parseIntUnsigned`.  `none` models `NaN`. -/
def parseIntJS (s : List Char) : Option ℤ :=
  match trimChars s with
  | '-' :: rest => (parseIntUnsigned rest).map (fun n => -(n : ℤ))
  | '+' :: rest => (parseIntUnsigned rest).map (fun n => (n : ℤ))
  | t => (parseIntUnsigned t).map (fun n => (n : ℤ))

/-- The parsed day list of the save-pay-settings handler:
`input.split(',').map(s => parseInt(s.trim())).filter(n => !isNaN(n) && n >= 1 && n <= 31)`
(the map and the `NaN`/range filter are fused into one `filterMap`;
`parseIntJS` performs the per-token `trim`). -/
def parsePayPeriodDays (input : String) : List ℤ :=
  (splitOnChar ',' (trimChars input.data)).filterMap (fun s =>
    match parseIntJS s with
    | none => none
    | some n => if 1 ≤ n ∧ n ≤ 31 then some n else none)

/-- The save-pay-settings click handler: reject (message, no mutation) when
no valid day survives the filter; otherwise sort the surviving days and store
them. -/
def savePayPeriod (store : Store) (rawInput : String) : Store × String :=
  let parts := parsePayPeriodDays rawInput
  if parts.isEmpty then
    (store, "Please enter valid day numbers separated by commas.")
  else
    let sorted := List.insertionSort (· ≤ ·) parts
    ({ store with paySettings := ⟨sorted⟩ }, "Pay period settings saved.")


/-- Source `Storage.get(key, defaultValue)`.  `localStore` is the underlying string
store (`localStorage.getItem`), `parseJSON` the platform `JSON.parse`
(`none` models a thrown `SyntaxError`; the `catch` branch also logs a console
warning, a side effect outside this model).  A missing value, the falsy `""`,
or a parse failure yield the default. -/
def StorageGet {α : Type} (parseJSON : String → Option α)
    (localStore : String → Option String) (key : String) (defaultValue : α) : α :=
  match localStore key with
  | none => defaultValue
  | some raw =>
    if raw = "" then defaultValue
    else
      match parseJSON raw with
      | none => defaultValue
      | some v => v

/-- Lexicographic comparison of character lists by code point, the order JS
string comparison (and hence default `Array.prototype.sort`) uses. -/
def lexLe : List Char → List Char → Bool
  | [], _ => true
  | _ :: _, [] => false
  | a :: as, b :: bs =>
    if a.toNat < b.toNat then true
    else if b.toNat < a.toNat then false
    else lexLe as bs

/-- Lexicographic `≤` on strings (JS `a <= b`). -/
def strLe (s t : String) : Bool := lexLe s.data t.data

/-- The order `strLe` as a relation, for use with `List.insertionSort`. -/
def StrLeRel (s t : String) : Prop := strLe s t = true

instance : DecidableRel StrLeRel :=
  fun s t => inferInstanceAs (Decidable (strLe s t = true))

/-- A row of the admin summary table. -/
structure SummaryRow where
  period : String
  user : String
  totalHours : String
  totalPay : String
deriving DecidableEq

/-- The rate `account?.hourlyRate || 0`: `0` when the account is absent or its rate is
unset (and `0` stays `0`, `||` being a falsy test). -/
def rateOf (accounts : List Account) (user : String) : JSNum :=
  match accounts.find? (fun a => a.username == user) with
  | none => jsnZero
  | some a =>
    match a.hourlyRate with
    | none => jsnZero
    | some r => r

/-- One step of the summary grouping loop:
`summaryMap[log.payPeriodStart][log.username] += log.minutesWorked`, creating
the nested objects on demand (a stored `null` adds as `0`). -/
def addLogToMap (m : List (String × List (String × JSNum))) (log : LogEntry) :
    List (String × List (String × JSNum)) :=
  let empMap := (getAssoc m log.payPeriodStart).getD []
  let cur := (getAssoc empMap log.username).getD jsnZero
  setAssoc m log.payPeriodStart
    (setAssoc empMap log.username (jsnAdd cur (log.minutesWorked.getD jsnZero)))

/-- Source `generateSummary()` with the two storage reads passed explicitly: group
logs by `(payPeriodStart, username)`, then emit rows for the lexicographically
sorted periods (`Object.keys(summaryMap).sort()`), users in insertion order. -/
def generateSummary (logs : List LogEntry) (accounts : List Account) :
    List SummaryRow :=
  let summaryMap := logs.foldl addLogToMap []
  let periods := List.insertionSort StrLeRel (summaryMap.map (fun p => p.1))
  periods.flatMap (fun period =>
    let empMap := (getAssoc summaryMap period).getD []
    empMap.map (fun p =>
      let user := p.1
      let totalMins := p.2
      let rate := rateOf accounts user
      let totalPay := toFixed2Str (jsnMul (jsnDiv totalMins (JSNum.ofInt 60)) rate)
      SummaryRow.mk period user (formatHours totalMins) totalPay))

/-- The specification's per-group total: the sum of `minutesWorked` over the
log entries of one `(payPeriodStart, username)` group. -/
def sumMins (logs : List LogEntry) (period user : String) : JSNum :=
  ((logs.filter (fun log => log.payPeriodStart == period && log.username == user)).map
    (fun log => log.minutesWorked.getD jsnZero)).foldr jsnAdd jsnZero

/-- The nested lookup `summaryMap[p][u]` (absent at either level is `none`). -/
def lookup2 (m : List (String × List (String × JSNum))) (p u : String) : Option JSNum :=
  match getAssoc m p with
  | none => none
  | some em => getAssoc em u

/-- Left-folded accumulation of a list of numbers onto a base value,
mirroring the order of additions performed by the grouping loop. -/
def jsnSumFrom (base : JSNum) (l : List JSNum) : JSNum := l.foldl jsnAdd base

/-- Every inner (per-user) map of a summary map has distinct keys. -/
def InnerNodup (m : List (String × List (String × JSNum))) : Prop :=
  ∀ pe ∈ m, (pe.2.map Prod.fst).Nodup

/- Sample data used by concrete witnesses and counterexamples. -/

/-- A one-entry log list: user `"u"` worked 50 minutes in period
`"2024-03-01"`. -/
def sampleLogs : List LogEntry :=
  [⟨"u", "2024-03-02", "09:00", "09:50", some (JSNum.ofInt 50), "2024-03-01"⟩]

/-- A single employee account with hourly rate 3. -/
def sampleAccounts : List Account :=
  [⟨"u", "p", "employee", some (JSNum.ofInt 3), some "09:00", some "17:00"⟩]

/-- A store with no accounts, default pay settings, no logs, no open punch. -/
def sampleStoreBase : Store := ⟨[], ⟨[1, 15]⟩, [], []⟩

/-- The seeded admin account. -/
def sampleAdmin : Account := ⟨"admin", "admin", "admin", none, none, none⟩

/-- A sample instant. -/
def sampleNow : NowInfo := ⟨⟨2024, 2, 10⟩, "17:30"⟩

/-- Employee account `"amy"`. -/
def sampleAmy : Account := ⟨"amy", "pw", "employee", some (JSNum.ofInt 10), some "09:00", some "17:00"⟩

/-- Employee account `"bob"`. -/
def sampleBob : Account := ⟨"bob", "pw", "employee", some (JSNum.ofInt 12), some "09:00", some "17:00"⟩

/-- A store with two employees and logs for both. -/
def sampleStoreTwo : Store :=
  ⟨[sampleAmy, sampleBob], ⟨[1, 15]⟩,
    [⟨"amy", "2024-03-02", "09:00", "17:00", some (JSNum.ofInt 480), "2024-03-01"⟩,
     ⟨"bob", "2024-03-02", "09:00", "17:00", some (JSNum.ofInt 480), "2024-03-01"⟩,
     ⟨"amy", "2024-03-03", "09:00", "13:00", some (JSNum.ofInt 240), "2024-03-01"⟩],
    []⟩

/-- A sample `JSON.parse`: accepts exactly the document `"5"`. -/
def sampleParse : String → Option ℤ := fun s => if s = "5" then some 5 else none

/-- A sample `localStorage`: key `"a"` holds valid JSON, key `"b"` holds a
malformed document. -/
def sampleLocalStore : String → Option String :=
  fun k => if k = "a" then some "5" else if k = "b" then some "x" else none

instance : IsTotal String StrLeRel := by
  constructor
  intro a b
  show strLe a b = true ∨ strLe b a = true
  unfold strLe
  generalize a.data = x
  generalize b.data = y
  induction x generalizing y with
  | nil => exact Or.inl rfl
  | cons c cs ih =>
    cases y with
    | nil => exact Or.inr rfl
    | cons d ds =>
      by_cases h1 : c.toNat < d.toNat
      · exact Or.inl (by simp [lexLe, h1])
      · by_cases h2 : d.toNat < c.toNat
        · exact Or.inr (by simp [lexLe, h1, h2])
        · rcases ih ds with h | h
          · exact Or.inl (by simp [lexLe, h1, h2, h])
          · exact Or.inr (by simp [lexLe, h1, h2, h])

instance : IsTrans String StrLeRel := by
  constructor
  have key : ∀ x y z : List Char, lexLe x y = true → lexLe y z = true → lexLe x z = true := by
    intro x
    induction x with
    | nil => intro y z _ _; rfl
    | cons c cs ih =>
      intro y z hxy hyz
      cases y with
      | nil => simp [lexLe] at hxy
      | cons d ds =>
        cases z with
        | nil => simp [lexLe] at hyz
        | cons e es =>
          simp only [lexLe] at hxy hyz ⊢
          by_cases h1 : c.toNat < d.toNat
          · by_cases h2 : d.toNat < e.toNat
            · simp [show c.toNat < e.toNat by omega]
            · simp only [h2, if_false] at hyz
              by_cases h3 : e.toNat < d.toNat
              · simp [h3] at hyz
              · simp [show c.toNat < e.toNat by omega]
          · simp only [h1, if_false] at hxy
            by_cases h4 : d.toNat < c.toNat
            · simp [h4] at hxy
            · simp only [h4, if_false] at hxy
              by_cases h2 : d.toNat < e.toNat
              · simp [show c.toNat < e.toNat by omega]
              · simp only [h2, if_false] at hyz
                by_cases h3 : e.toNat < d.toNat
                · simp [h3] at hyz
                · simp only [h3, if_false] at hyz
                  have hce : ¬ c.toNat < e.toNat := by omega
                  have hec : ¬ e.toNat < c.toNat := by omega
                  simp [hce, hec, ih ds es hxy hyz]
  intro a b c hab hbc
  exact key a.data b.data c.data hab hbc

/-- Closed form of `computeWorkedMinutes` when all four clock strings parse:
`max 0 (min ao se - ss - max 0 (ai - ss))`. -/
theorem computeWorkedMinutes_closed_form (s1 s2 s3 s4 : String) (ss se ai ao : ℤ)
    (h1 : timeToMinutes s1 = some ss) (h2 : timeToMinutes s2 = some se)
    (h3 : timeToMinutes s3 = some ai) (h4 : timeToMinutes s4 = some ao) :
    computeWorkedMinutes s1 s2 s3 s4 = some (max 0 (min ao se - ss - max 0 (ai - ss))) := by
  unfold computeWorkedMinutes
  rw [h1, h2, h3, h4]
  by_cases hd : ss < ai
  · simp [jsGt, jsMin, jsSub, jsLtZero, hd]
    split_ifs <;> simp only [Option.some.injEq] <;> omega
  · simp [jsGt, jsMin, jsSub, jsLtZero, hd]
    split_ifs <;> simp only [Option.some.injEq] <;> omega

/-- C2: with minute offsets `ss, se, ai, ao`, `computeWorkedMinutes` equals
`max(0, min(ao, se) - ss - max(0, ai - ss))`; in particular 09:00–17:00
scheduled with punches 09:10/17:30 yields 470 minutes. -/
theorem computeWorkedMinutes_formula (s1 s2 s3 s4 : String) (ss se ai ao : ℤ)
    (h1 : timeToMinutes s1 = some ss) (h2 : timeToMinutes s2 = some se)
    (h3 : timeToMinutes s3 = some ai) (h4 : timeToMinutes s4 = some ao) :
    computeWorkedMinutes s1 s2 s3 s4 = some (max 0 (min ao se - ss - max 0 (ai - ss))) ∧
    computeWorkedMinutes "09:00" "17:00" "09:10" "17:30" = some 470 :=
  ⟨computeWorkedMinutes_closed_form s1 s2 s3 s4 ss se ai ao h1 h2 h3 h4, by decide⟩

/-- Witness for `computeWorkedMinutes_formula` at the scenario input. -/
theorem computeWorkedMinutes_formula_witness :
    computeWorkedMinutes "09:00" "17:00" "09:10" "17:30" =
      some (max 0 (min 1050 1020 - 540 - max 0 (550 - 540))) :=
  (computeWorkedMinutes_formula "09:00" "17:00" "09:10" "17:30" 540 1020 550 1050
    (by decide) (by decide) (by decide) (by decide)).1

/-- C6 counterexample: with scheduled start 17:00 and scheduled end 09:00,
punching exactly on schedule yields 0, not `se - ss = -480` (which the result
also strictly exceeds); and with a 899-minute-late punch-in the result is 0,
not the on-time result reduced by the late minutes (which would be negative). -/
theorem computeWorkedMinutes_cex :
    timeToMinutes "17:00" = some 1020 ∧
    timeToMinutes "09:00" = some 540 ∧
    computeWorkedMinutes "17:00" "09:00" "17:00" "09:00" = some 0 ∧
    ((0 : ℤ) ≠ 540 - 1020) ∧
    ¬ ((0 : ℤ) ≤ 540 - 1020) ∧
    timeToMinutes "23:59" = some 1439 ∧
    computeWorkedMinutes "09:00" "17:00" "09:00" "17:00" = some 480 ∧
    computeWorkedMinutes "09:00" "17:00" "23:59" "17:00" = some 0 ∧
    ((0 : ℤ) ≠ 480 - (1439 - 540)) := by decide

/-- C6 (amended): with minute offsets `ss, se, ai, ao`, the result is never
negative; it equals `se - ss` on exact on-time punches provided `ss ≤ se`;
for a late punch-in it is the on-time result reduced by the late minutes,
floored at zero; and it never exceeds `max 0 (se - ss)`. -/
theorem computeWorkedMinutes_props (s1 s2 s3 s4 : String) (ss se ai ao : ℤ)
    (h1 : timeToMinutes s1 = some ss) (h2 : timeToMinutes s2 = some se)
    (h3 : timeToMinutes s3 = some ai) (h4 : timeToMinutes s4 = some ao) :
    (∃ r, computeWorkedMinutes s1 s2 s3 s4 = some r ∧ 0 ≤ r) ∧
    (ss ≤ se → ai = ss → ao = se → computeWorkedMinutes s1 s2 s3 s4 = some (se - ss)) ∧
    (ss < ai → ∃ r0, computeWorkedMinutes s1 s2 s1 s4 = some r0 ∧
      computeWorkedMinutes s1 s2 s3 s4 = some (max 0 (r0 - (ai - ss)))) ∧
    (∀ r, computeWorkedMinutes s1 s2 s3 s4 = some r → r ≤ max 0 (se - ss)) := by
  have hc := computeWorkedMinutes_closed_form s1 s2 s3 s4 ss se ai ao h1 h2 h3 h4
  have hc0 := computeWorkedMinutes_closed_form s1 s2 s1 s4 ss se ss ao h1 h2 h1 h4
  refine ⟨⟨_, hc, le_max_left _ _⟩, ?_, ?_, ?_⟩
  · intro hle hai hao
    rw [hc, hai, hao]
    congr 1
    omega
  · intro hlt
    refine ⟨_, hc0, ?_⟩
    rw [hc]
    congr 1
    omega
  · intro r hr
    rw [hc] at hr
    simp only [Option.some.injEq] at hr
    omega

/-- Witness for `computeWorkedMinutes_props` at the scenario input. -/
theorem computeWorkedMinutes_props_witness :
    ∃ r, computeWorkedMinutes "09:00" "17:00" "09:10" "17:30" = some r ∧ 0 ≤ r :=
  (computeWorkedMinutes_props "09:00" "17:00" "09:10" "17:30" 540 1020 550 1050
    (by decide) (by decide) (by decide) (by decide)).1

/-- Digits have the expected code points. -/
theorem digitChar_toNat (n : ℕ) (h : n < 10) : (digitChar n).toNat = 48 + n := by
  interval_cases n <;> decide

/-- Digit characters are not the colon separator. -/
theorem digitChar_ne_colon (n : ℕ) (h : n < 10) : digitChar n ≠ ':' := by
  interval_cases n <;> decide

/-- One-digit numbers print as a single digit character. -/
theorem natRepr_lt10 (n : ℕ) (h : n < 10) : natRepr n = [digitChar n] := by
  unfold natRepr natReprAux
  rw [if_pos h]

/-- Two-digit numbers print as their two digit characters. -/
theorem natRepr_two_digits (n : ℕ) (h10 : 10 ≤ n) (h100 : n < 100) :
    natRepr n = [digitChar (n / 10), digitChar (n % 10)] := by
  obtain ⟨m, rfl⟩ : ∃ m, n = m + 1 := ⟨n - 1, by omega⟩
  unfold natRepr natReprAux
  rw [if_neg (by omega)]
  have hq : (m + 1) / 10 < 10 := by omega
  simp only [natReprAux, if_pos hq]
  rfl

/-- Zero-padding a number below 100 yields exactly its two digits. -/
theorem padStart_natRepr (n : ℕ) (h : n < 100) :
    padStart 2 '0' (natRepr n) = [digitChar (n / 10), digitChar (n % 10)] := by
  by_cases h10 : n < 10
  · rw [natRepr_lt10 n h10]
    have hq : n / 10 = 0 := by omega
    have hr : n % 10 = n := by omega
    rw [hq, hr]
    simp [padStart, List.replicate]
    decide
  · rw [natRepr_two_digits n (by omega) h]
    simp [padStart]

/-- Applying `Number` to a two-digit-character list gives the two-digit value. -/
theorem toNumber_digit_pair (a b : ℕ) (ha : a < 10) (hb : b < 10) :
    toNumber [digitChar a, digitChar b] = some ((10 * a + b : ℕ) : ℤ) := by
  interval_cases a <;> interval_cases b <;> decide

/-- The colon does not occur among the padded digits of a number below 100. -/
theorem colon_not_mem_pad (n : ℕ) (h : n < 100) :
    ':' ∉ padStart 2 '0' (natRepr n) := by
  rw [padStart_natRepr n h]
  intro hmem
  rcases List.mem_cons.mp hmem with h1 | h1
  · exact digitChar_ne_colon (n / 10) (by omega) h1.symm
  · rcases List.mem_cons.mp h1 with h2 | h2
    · exact digitChar_ne_colon (n % 10) (by omega) h2.symm
    · cases h2

/-- Splitting a separator-free list yields a single field. -/
theorem splitOnChar_not_mem (sep : Char) :
    ∀ l : List Char, sep ∉ l → splitOnChar sep l = [l] := by
  intro l
  induction l with
  | nil => intro _; rfl
  | cons c rest ih =>
    intro h
    have hc : ¬ c = sep := fun hc => h (hc ▸ List.mem_cons_self c rest)
    have hrest : sep ∉ rest := fun hr => h (List.mem_cons_of_mem c hr)
    unfold splitOnChar
    rw [if_neg hc, ih hrest]

/-- Splitting around the first separator occurrence. -/
theorem splitOnChar_append (sep : Char) :
    ∀ l1 l2 : List Char, sep ∉ l1 →
      splitOnChar sep (l1 ++ sep :: l2) = l1 :: splitOnChar sep l2 := by
  intro l1
  induction l1 with
  | nil =>
    intro l2 _
    simp only [List.nil_append]
    rw [splitOnChar, if_pos rfl]
  | cons c cs ih =>
    intro l2 h
    have hc : ¬ c = sep := fun hc => h (hc ▸ List.mem_cons_self c cs)
    have hcs : sep ∉ cs := fun hr => h (List.mem_cons_of_mem c hr)
    simp only [List.cons_append]
    rw [splitOnChar, if_neg hc, ih l2 hcs]

/-- Parsing the canonical clock string recovers the minute offset. -/
theorem timeToMinutes_clockStr (h m : ℕ) (hh : h < 24) (hm : m < 60) :
    timeToMinutes (clockStr h m) = some ((h : ℤ) * 60 + m) := by
  unfold timeToMinutes clockStr
  have hsplit :
      splitOnChar ':' (padStart 2 '0' (natRepr h) ++ ':' :: padStart 2 '0' (natRepr m)) =
        [padStart 2 '0' (natRepr h), padStart 2 '0' (natRepr m)] := by
    rw [splitOnChar_append ':' _ _ (colon_not_mem_pad h (by omega)),
      splitOnChar_not_mem ':' _ (colon_not_mem_pad m (by omega))]
  show (match splitOnChar ':' (padStart 2 '0' (natRepr h) ++ ':' :: padStart 2 '0' (natRepr m)) with
    | hf :: mf :: _ =>
      match toNumber hf, toNumber mf with
      | some hv, some mv => some (hv * 60 + mv)
      | _, _ => none
    | _ => none) = some ((h : ℤ) * 60 + m)
  rw [hsplit, padStart_natRepr h (by omega), padStart_natRepr m (by omega)]
  simp only [toNumber_digit_pair (h / 10) (h % 10) (by omega) (by omega),
    toNumber_digit_pair (m / 10) (m % 10) (by omega) (by omega), Option.some.injEq]
  push_cast
  omega

/-- Printing a valid minute offset recovers the canonical clock string. -/
theorem minutesToTime_offset (h m : ℕ) (hh : h < 24) (hm : m < 60) :
    minutesToTime ((h : ℤ) * 60 + m) = clockStr h m := by
  unfold minutesToTime clockStr
  have hnn : (0 : ℤ) ≤ (h : ℤ) * 60 + m := by positivity
  have e1 : Int.fdiv ((h : ℤ) * 60 + m) 60 = (h : ℤ) := by
    rw [Int.fdiv_eq_ediv _ (by norm_num)]
    omega
  have e2 : Int.tmod ((h : ℤ) * 60 + m) 60 = (m : ℤ) := by
    rw [Int.tmod_eq_emod hnn (by norm_num)]
    omega
  have e3 : ∀ k : ℕ, intRepr (k : ℤ) = natRepr k := by
    intro k
    unfold intRepr
    rw [if_neg (by omega)]
    simp
  rw [e1, e2, e3, e3]

/-- C8: for every valid `"HH:MM"` clock string, converting to minutes and
back with `minutesToTime` recovers the original string. -/
theorem minutesToTime_timeToMinutes (s : String) (hv : IsValidClock s) :
    ∃ n, timeToMinutes s = some n ∧ minutesToTime n = s := by
  obtain ⟨h, m, hh, hm, rfl⟩ := hv
  exact ⟨(h : ℤ) * 60 + m, timeToMinutes_clockStr h m hh hm, minutesToTime_offset h m hh hm⟩

/-- Witness for `minutesToTime_timeToMinutes` at `"09:05"`. -/
theorem minutesToTime_timeToMinutes_witness :
    ∃ n, timeToMinutes "09:05" = some n ∧ minutesToTime n = "09:05" :=
  minutesToTime_timeToMinutes "09:05" ⟨9, 5, by omega, by omega, by decide⟩

/-- The maximum `listMax` is `none` exactly on the empty list. -/
theorem listMax_eq_none : ∀ {l : List ℤ}, listMax l = none ↔ l = [] := by
  intro l
  cases l with
  | nil => simp [listMax]
  | cons x xs =>
    simp only [listMax]
    cases listMax xs <;> simp

/-- A `listMax` result is an element of the list. -/
theorem listMax_mem : ∀ {l : List ℤ} {a : ℤ}, listMax l = some a → a ∈ l := by
  intro l
  induction l with
  | nil => intro a h; cases h
  | cons x xs ih =>
    intro a h
    rw [listMax] at h
    cases hxs : listMax xs with
    | none =>
      rw [hxs] at h
      have hxa : x = a := by simpa using h
      subst hxa
      exact List.mem_cons_self x xs
    | some m =>
      rw [hxs] at h
      have hma : max x m = a := by simpa using h
      subst hma
      rcases max_choice x m with hc | hc <;> rw [hc]
      · exact List.mem_cons_self x xs
      · exact List.mem_cons_of_mem x (ih hxs)

/-- A `listMax` result bounds every element of the list. -/
theorem listMax_le : ∀ {l : List ℤ} {a : ℤ}, listMax l = some a → ∀ b ∈ l, b ≤ a := by
  intro l
  induction l with
  | nil => intro a _ b hb; cases hb
  | cons x xs ih =>
    intro a h b hb
    rw [listMax] at h
    cases hxs : listMax xs with
    | none =>
      rw [hxs] at h
      have hxa : x = a := by simpa using h
      subst hxa
      have hnil : xs = [] := listMax_eq_none.mp hxs
      subst hnil
      rcases List.mem_cons.mp hb with rfl | hb'
      · exact le_refl b
      · cases hb'
    | some m =>
      rw [hxs] at h
      have hma : max x m = a := by simpa using h
      rcases List.mem_cons.mp hb with rfl | hb'
      · exact le_trans (le_max_left b m) (le_of_eq hma)
      · exact le_trans (le_trans (ih hxs b hb') (le_max_right x m)) (le_of_eq hma)

/-- The maximum `listMax` is invariant under permutation. -/
theorem listMax_perm {l1 l2 : List ℤ} (h : List.Perm l1 l2) : listMax l1 = listMax l2 := by
  cases h1 : listMax l1 with
  | none =>
    rw [listMax_eq_none] at h1
    subst h1
    have : l2 = [] := List.Perm.eq_nil (List.Perm.symm h)
    subst this
    rfl
  | some a =>
    cases h2 : listMax l2 with
    | none =>
      rw [listMax_eq_none] at h2
      subst h2
      have : l1 = [] := List.Perm.eq_nil h
      subst this
      cases h1
    | some b =>
      have ha : a ∈ l2 := (List.Perm.mem_iff h).mp (listMax_mem h1)
      have hb : b ∈ l1 := (List.Perm.mem_iff h).mpr (listMax_mem h2)
      have := le_antisymm (listMax_le h2 a ha) (listMax_le h1 b hb)
      rw [this]

/-- The scanning loop of `getPayPeriodStart`, on a sorted list, computes the
maximum of the qualifying start days. -/
theorem foldl_choose_sorted (day : ℤ) :
    ∀ l : List ℤ, l.Sorted (· ≤ ·) →
      l.foldl (fun acc sd => if sd ≤ day then some sd else acc) none =
        listMax (l.filter (fun sd => decide (sd ≤ day))) := by
  have general : ∀ l : List ℤ, l.Sorted (· ≤ ·) → ∀ acc : Option ℤ,
      l.foldl (fun acc sd => if sd ≤ day then some sd else acc) acc =
        (match listMax (l.filter (fun sd => decide (sd ≤ day))) with
          | some x => some x
          | none => acc) := by
    intro l
    induction l with
    | nil => intro _ acc; rfl
    | cons x xs ih =>
      intro hs acc
      have hs' : xs.Sorted (· ≤ ·) := hs.tail
      have hhead : ∀ b ∈ xs, x ≤ b := (List.sorted_cons.mp hs).1
      rw [List.foldl_cons, ih hs']
      by_cases hx : x ≤ day
      · rw [List.filter_cons_of_pos (by simpa using hx), if_pos hx]
        cases hxs : listMax (xs.filter (fun sd => decide (sd ≤ day))) with
        | none => simp [listMax, hxs]
        | some m =>
          have hm : m ∈ xs := List.mem_of_mem_filter (listMax_mem hxs)
          simp only [listMax, hxs]
          rw [max_eq_right (hhead m hm)]
      · rw [List.filter_cons_of_neg (by simpa using hx), if_neg hx]
  intro l hs
  rw [general l hs none]
  cases listMax (l.filter (fun sd => decide (sd ≤ day))) <;> rfl

/-- On a sorted list, the last element is the maximum. -/
theorem sorted_getLast_eq_listMax :
    ∀ l : List ℤ, l.Sorted (· ≤ ·) → l.getLast? = listMax l := by
  intro l
  induction l with
  | nil => intro _; rfl
  | cons x xs ih =>
    intro hs
    cases xs with
    | nil => rfl
    | cons y ys =>
      have hs' : (y :: ys).Sorted (· ≤ ·) := hs.tail
      have hxy : ∀ b ∈ y :: ys, x ≤ b := (List.sorted_cons.mp hs).1
      rw [List.getLast?_cons_cons, ih hs']
      cases hm : listMax (y :: ys) with
      | none => rw [listMax_eq_none] at hm; cases hm
      | some m =>
        have hxm : x ≤ m := hxy m (listMax_mem hm)
        show some m =
          (match listMax (y :: ys) with
            | none => some x
            | some k => some (max x k))
        rw [hm]
        show some m = some (max x m)
        rw [max_eq_right hxm]

/-- Core equivalence for `getPayPeriodStart`: away from the two-digit-year
re-mapping of the `Date` constructor, the implementation agrees with the
specification's description. -/
theorem getPayPeriodStart_eq_spec (startDays : List ℤ) (d : JSDate)
    (hy : d.year < 0 ∨ 100 ≤ d.year) (hy0 : d.month = 0 → d.year ≠ 100) :
    getPayPeriodStart startDays d = specPayPeriodStart startDays d := by
  have hsorted : (List.insertionSort (· ≤ ·) startDays).Sorted (· ≤ ·) :=
    List.sorted_insertionSort _ _
  have hperm : List.Perm (List.insertionSort (· ≤ ·) startDays) startDays :=
    List.perm_insertionSort _ _
  have hfold := foldl_choose_sorted d.day (List.insertionSort (· ≤ ·) startDays) hsorted
  have hfilter :
      listMax ((List.insertionSort (· ≤ ·) startDays).filter (fun sd => decide (sd ≤ d.day))) =
        listMax (startDays.filter (fun sd => decide (sd ≤ d.day))) :=
    listMax_perm (hperm.filter _)
  have hlast : (List.insertionSort (· ≤ ·) startDays).getLast? = listMax startDays := by
    rw [sorted_getLast_eq_listMax _ hsorted]
    exact listMax_perm hperm
  have hjy : jsDateYear d.year = d.year := by
    unfold jsDateYear
    rw [if_neg (by rcases hy with h | h <;> omega)]
  have hjyp : jsDateYear (if d.month = 0 then d.year - 1 else d.year) =
      (if d.month = 0 then d.year - 1 else d.year) := by
    by_cases hm : d.month = 0
    · have hne := hy0 hm
      rw [if_pos hm]
      unfold jsDateYear
      rw [if_neg (by rcases hy with h | h <;> omega)]
    · rw [if_neg hm]
      exact hjy
  simp only [getPayPeriodStart, specPayPeriodStart]
  rw [hfold, hfilter, hlast, hjy, hjyp]
  cases listMax (List.filter (fun sd => decide (sd ≤ d.day)) startDays) <;> rfl

/-- C1 (amended): for a non-empty set of configured start days (each at least
1) and any date whose year — and, when January's fallback borrows from the
previous year, whose previous year — escapes the constructor's two-digit-year
re-mapping, `getPayPeriodStart` returns exactly the date described by the
specification: the largest start day `≤ day` clamped into the date's month,
else the largest start day applied to the previous month, clamped.  The three
scenario inputs evaluate as specified. -/
theorem getPayPeriodStart_correct (startDays : List ℤ) (d : JSDate)
    (hne : startDays ≠ []) (hpos : ∀ x ∈ startDays, 1 ≤ x)
    (hy : d.year < 0 ∨ 100 ≤ d.year) (hy0 : d.month = 0 → d.year ≠ 100) :
    getPayPeriodStart startDays d = specPayPeriodStart startDays d ∧
    getPayPeriodStart [1, 15] ⟨2024, 2, 10⟩ = some "2024-03-01" ∧
    getPayPeriodStart [1, 15] ⟨2024, 2, 20⟩ = some "2024-03-15" ∧
    getPayPeriodStart [1, 15] ⟨2024, 2, 1⟩ = some "2024-03-01" :=
  ⟨getPayPeriodStart_eq_spec startDays d hy hy0, by decide, by decide, by decide⟩

/-- C1 counterexample: for the date 0050-06-20 the constructor re-maps year
50 to 1950, so the result is not the ISO date built from the date's own
year/month as the claim describes for every date. -/
theorem getPayPeriodStart_year_cex :
    getPayPeriodStart [1, 15] ⟨50, 5, 20⟩ = some "1950-06-15" ∧
    specPayPeriodStart [1, 15] ⟨50, 5, 20⟩ = some "0050-06-15" ∧
    (some "1950-06-15" : Option String) ≠ some "0050-06-15" := by decide

/-- Witness for `getPayPeriodStart_correct` at startDays `[1, 15]` and date
2024-03-10. -/
theorem getPayPeriodStart_correct_witness :
    getPayPeriodStart [1, 15] ⟨2024, 2, 10⟩ = specPayPeriodStart [1, 15] ⟨2024, 2, 10⟩ :=
  (getPayPeriodStart_correct [1, 15] ⟨2024, 2, 10⟩ (by decide) (by decide)
    (by decide) (by decide)).1

/-- C4: when the acting user has no open punch dated today (no entry, or a
stale date), punch-out alerts `'No punch in record found for today.'` and
leaves the store — logs, open-punch map, accounts, settings — untouched; in
particular no `LogEntry` is created. -/
theorem punchOut_rejected (store : Store) (currentUser : Account) (now : NowInfo)
    (h : getAssoc store.currentPunch currentUser.username = none ∨
      ∀ pr, getAssoc store.currentPunch currentUser.username = some pr →
        pr.date ≠ todayStr now) :
    punchOut store currentUser now = (store, PunchOutResult.noPunchIn) := by
  unfold punchOut
  cases hrec : getAssoc store.currentPunch currentUser.username with
  | none => rfl
  | some pr =>
    have hd : pr.date ≠ todayStr now := by
      rcases h with h | h
      · rw [hrec] at h; cases h
      · exact h pr hrec
    simp [hd]

/-- Witness for `punchOut_rejected` on a store with an empty open-punch map. -/
theorem punchOut_rejected_witness :
    punchOut sampleStoreBase sampleAdmin sampleNow = (sampleStoreBase, PunchOutResult.noPunchIn) :=
  punchOut_rejected sampleStoreBase sampleAdmin sampleNow (Or.inl rfl)

/-- C5 counterexample: the input `"7,abc"` contains the non-numeric token
`"abc"`, yet the handler saves `[7]` and reports success instead of aborting
without mutation. -/
theorem savePayPeriod_cex :
    (savePayPeriod sampleStoreBase "7,abc").1.paySettings = ⟨[7]⟩ ∧
    (savePayPeriod sampleStoreBase "7,abc").2 = "Pay period settings saved." ∧
    (savePayPeriod sampleStoreBase "7,abc").1 ≠ sampleStoreBase := by decide

/-- C5 (amended): the handler rejects — validation message, no state change —
exactly when no token survives the parse/range filter (so an input whose
valid-day set would be empty is rejected); otherwise it stores the sorted
surviving days even if some tokens were invalid. -/
theorem savePayPeriod_spec (store : Store) (input : String) :
    (parsePayPeriodDays input = [] →
      savePayPeriod store input =
        (store, "Please enter valid day numbers separated by commas.")) ∧
    (parsePayPeriodDays input ≠ [] →
      savePayPeriod store input =
        ({ store with
            paySettings := ⟨List.insertionSort (· ≤ ·) (parsePayPeriodDays input)⟩ },
          "Pay period settings saved.")) := by
  constructor
  · intro h
    unfold savePayPeriod
    rw [if_pos (by simp [h])]
  · intro h
    unfold savePayPeriod
    rw [if_neg (by simp [h])]

/-- Witness for `savePayPeriod_spec`: the all-invalid input `"40"` is
rejected without mutation. -/
theorem savePayPeriod_spec_witness :
    savePayPeriod sampleStoreBase "40" =
      (sampleStoreBase, "Please enter valid day numbers separated by commas.") :=
  (savePayPeriod_spec sampleStoreBase "40").1 (by decide)

/-- C7: deleting `accounts[idx]` removes every log entry of that account's
username and leaves every other username's entries unchanged, in order. -/
theorem deleteEmployee_logs (store : Store) (idx : ℕ) (user : Account)
    (h : store.accounts[idx]? = some user) :
    (∀ e ∈ (deleteEmployee store idx true).logs, e.username ≠ user.username) ∧
    (∀ v, v ≠ user.username →
      (deleteEmployee store idx true).logs.filter (fun e => e.username == v) =
        store.logs.filter (fun e => e.username == v)) := by
  unfold deleteEmployee
  rw [h]
  simp only [if_pos]
  constructor
  · intro e he
    have hm := List.mem_filter.mp he
    simpa using hm.2
  · intro v hv
    rw [List.filter_filter]
    apply List.filter_congr
    intro e _
    by_cases hev : e.username = v
    · simp [hev, hv]
    · simp [hev]

/-- Witness for `deleteEmployee_logs`: deleting `"amy"` (index 0) in the
two-employee store leaves `"bob"`'s entries intact. -/
theorem deleteEmployee_logs_witness :
    (deleteEmployee sampleStoreTwo 0 true).logs.filter (fun e => e.username == "bob") =
      sampleStoreTwo.logs.filter (fun e => e.username == "bob") :=
  (deleteEmployee_logs sampleStoreTwo 0 sampleAmy rfl).2 "bob" (by decide)

/-- C10: the delete handler never touches the open-punch map: whatever the
index or confirmation, `currentPunch` is unchanged, so a deleted user's open
punch survives as a stale entry. -/
theorem deleteEmployee_currentPunch (store : Store) (idx : ℕ) (confirmDelete : Bool) :
    (deleteEmployee store idx confirmDelete).currentPunch = store.currentPunch := by
  unfold deleteEmployee
  cases store.accounts[idx]? with
  | none => rfl
  | some user => cases confirmDelete <;> rfl

/-- C9: `Storage.get` returns the caller's default when the stored value is
missing or fails to parse as JSON, and the decoded value otherwise (assuming
the parser rejects the empty document, as `JSON.parse` does — the source also
short-circuits the falsy `""` to the default before parsing). -/
theorem storageGet_spec {α : Type} (parseJSON : String → Option α)
    (localStore : String → Option String) (key : String) (defaultValue : α)
    (hp : parseJSON "" = none) :
    (localStore key = none → StorageGet parseJSON localStore key defaultValue = defaultValue) ∧
    (∀ raw, localStore key = some raw → parseJSON raw = none →
      StorageGet parseJSON localStore key defaultValue = defaultValue) ∧
    (∀ raw v, localStore key = some raw → parseJSON raw = some v →
      StorageGet parseJSON localStore key defaultValue = v) := by
  refine ⟨?_, ?_, ?_⟩
  · intro h
    unfold StorageGet
    rw [h]
  · intro raw h hparse
    unfold StorageGet
    rw [h]
    by_cases hr : raw = ""
    · simp [hr]
    · simp [hr, hparse]
  · intro raw v h hparse
    unfold StorageGet
    rw [h]
    by_cases hr : raw = ""
    · rw [hr, hp] at hparse
      cases hparse
    · simp [hr, hparse]

/-- Witness for `storageGet_spec`: the malformed document under `"b"` falls
back to the default, the valid document under `"a"` decodes, and a missing
key falls back to the default. -/
theorem storageGet_spec_witness :
    StorageGet sampleParse sampleLocalStore "b" 9 = 9 ∧
    StorageGet sampleParse sampleLocalStore "a" 9 = 5 ∧
    StorageGet sampleParse sampleLocalStore "zzz" 9 = 9 :=
  ⟨(storageGet_spec sampleParse sampleLocalStore "b" 9 (by decide)).2.1 "x"
      (by decide) (by decide),
    (storageGet_spec sampleParse sampleLocalStore "a" 9 (by decide)).2.2 "5" 5
      (by decide) (by decide),
    (storageGet_spec sampleParse sampleLocalStore "zzz" 9 (by decide)).1 (by decide)⟩

/-- Setting a key makes it retrievable. -/
theorem getAssoc_setAssoc_self {V : Type} :
    ∀ (m : List (String × V)) (k : String) (v : V),
      getAssoc (setAssoc m k v) k = some v := by
  intro m k v
  induction m with
  | nil => simp [setAssoc, getAssoc]
  | cons p rest ih =>
    obtain ⟨ka, w⟩ := p
    simp only [setAssoc]
    by_cases hk : ka = k
    · rw [if_pos hk]
      simp only [getAssoc]
      rw [if_pos hk]
    · rw [if_neg hk]
      simp only [getAssoc]
      rw [if_neg hk]
      exact ih

/-- Setting a key does not disturb other keys. -/
theorem getAssoc_setAssoc_ne {V : Type} :
    ∀ (m : List (String × V)) (key k2 : String) (v : V), key ≠ k2 →
      getAssoc (setAssoc m key v) k2 = getAssoc m k2 := by
  intro m key k2 v hne
  induction m with
  | nil =>
    simp only [setAssoc, getAssoc]
    rw [if_neg hne]
  | cons p rest ih =>
    obtain ⟨ka, w⟩ := p
    simp only [setAssoc]
    by_cases hk : ka = key
    · rw [if_pos hk]
      simp only [getAssoc]
      rw [if_neg (hk ▸ hne : ¬ ka = k2), if_neg (hk ▸ hne : ¬ ka = k2)]
    · rw [if_neg hk]
      simp only [getAssoc]
      by_cases hk2 : ka = k2
      · rw [if_pos hk2, if_pos hk2]
      · rw [if_neg hk2, if_neg hk2]
        exact ih

/-- Adding zero on the right is the identity (component-wise). -/
theorem jsnAdd_zero (a : JSNum) : jsnAdd a jsnZero = a := by
  cases a with
  | mk n d => simp [jsnAdd, jsnZero]

/-- Adding zero on the left is the identity (component-wise). -/
theorem zero_jsnAdd (a : JSNum) : jsnAdd jsnZero a = a := by
  cases a with
  | mk n d => simp [jsnAdd, jsnZero]

/-- Exact rational addition of fraction pairs is associative. -/
theorem jsnAdd_assoc (a b c : JSNum) : jsnAdd (jsnAdd a b) c = jsnAdd a (jsnAdd b c) := by
  cases a with
  | mk an ad =>
    cases b with
    | mk bn bd =>
      cases c with
      | mk cn cd =>
        simp only [jsnAdd, JSNum.mk.injEq]
        constructor <;> ring

/-- A left fold of additions is the base plus the right-folded sum. -/
theorem jsnSumFrom_eq :
    ∀ (l : List JSNum) (base : JSNum),
      jsnSumFrom base l = jsnAdd base (l.foldr jsnAdd jsnZero) := by
  intro l
  induction l with
  | nil =>
    intro base
    show base = jsnAdd base jsnZero
    rw [jsnAdd_zero]
  | cons a l ih =>
    intro base
    show List.foldl jsnAdd (jsnAdd base a) l = jsnAdd base (jsnAdd a (List.foldr jsnAdd jsnZero l))
    rw [← jsnAdd_assoc]
    exact ih (jsnAdd base a)

/-- Effect of one grouping step on its own `(period, user)` cell. -/
theorem lookup2_addLog_hit (m : List (String × List (String × JSNum))) (log : LogEntry) :
    lookup2 (addLogToMap m log) log.payPeriodStart log.username =
      some (jsnAdd ((lookup2 m log.payPeriodStart log.username).getD jsnZero)
        (log.minutesWorked.getD jsnZero)) := by
  unfold addLogToMap lookup2
  simp only [getAssoc_setAssoc_self]
  cases hm : getAssoc m log.payPeriodStart with
  | none => simp [hm, getAssoc]
  | some em => simp [hm]

/-- One grouping step leaves every other cell unchanged. -/
theorem lookup2_addLog_miss (m : List (String × List (String × JSNum))) (log : LogEntry)
    (p u : String) (h : ¬(p = log.payPeriodStart ∧ u = log.username)) :
    lookup2 (addLogToMap m log) p u = lookup2 m p u := by
  unfold addLogToMap lookup2
  by_cases hp : p = log.payPeriodStart
  · have hu : u ≠ log.username := fun h2 => h ⟨hp, h2⟩
    rw [hp]
    simp only [getAssoc_setAssoc_self]
    rw [getAssoc_setAssoc_ne _ _ _ _ (Ne.symm hu)]
    cases hm : getAssoc m log.payPeriodStart with
    | none => simp [hm, getAssoc]
    | some em => simp [hm]
  · rw [getAssoc_setAssoc_ne _ _ _ _ (Ne.symm hp)]

/-- Invariant of the grouping fold: a cell of the summary map holds exactly
the base value plus the (left-accumulated) minutes of the matching log
entries, and is untouched when no entry matches. -/
theorem foldl_addLog_lookup2 (p u : String) :
    ∀ (logs : List LogEntry) (m : List (String × List (String × JSNum))),
      lookup2 (logs.foldl addLogToMap m) p u =
        (if logs.filter (fun log => log.payPeriodStart == p && log.username == u) = []
         then lookup2 m p u
         else some (jsnSumFrom ((lookup2 m p u).getD jsnZero)
           ((logs.filter (fun log => log.payPeriodStart == p && log.username == u)).map
             (fun log => log.minutesWorked.getD jsnZero)))) := by
  intro logs
  induction logs with
  | nil =>
    intro m
    rw [List.foldl_nil, List.filter_nil, if_pos rfl]
  | cons log rest ih =>
    intro m
    rw [List.foldl_cons, ih (addLogToMap m log)]
    by_cases hmatch : log.payPeriodStart = p ∧ log.username = u
    · obtain ⟨hp, hu⟩ := hmatch
      have hpred : (log.payPeriodStart == p && log.username == u) = true := by
        simp [hp, hu]
      have hfc : List.filter (fun l => l.payPeriodStart == p && l.username == u) (log :: rest) =
          log :: List.filter (fun l => l.payPeriodStart == p && l.username == u) rest := by
        simp [List.filter_cons, hpred]
      rw [hfc]
      have hhit := lookup2_addLog_hit m log
      rw [hp, hu] at hhit
      by_cases hfr : rest.filter (fun l => l.payPeriodStart == p && l.username == u) = []
      · rw [if_pos hfr, if_neg (List.cons_ne_nil _ _), hhit, hfr]
        rfl
      · rw [if_neg hfr, if_neg (List.cons_ne_nil _ _), hhit]
        rfl
    · have hpred : (log.payPeriodStart == p && log.username == u) = false := by
        by_cases ha : log.payPeriodStart = p
        · have hb : log.username ≠ u := fun hb => hmatch ⟨ha, hb⟩
          simp [ha, hb]
        · simp [ha]
      have hfc : List.filter (fun l => l.payPeriodStart == p && l.username == u) (log :: rest) =
          List.filter (fun l => l.payPeriodStart == p && l.username == u) rest := by
        simp [List.filter_cons, hpred]
      rw [hfc, lookup2_addLog_miss m log p u (fun hc => hmatch ⟨hc.1.symm, hc.2.symm⟩)]

/-- The empty summary map has empty cells. -/
theorem lookup2_nil (p u : String) :
    lookup2 ([] : List (String × List (String × JSNum))) p u = none := rfl

/-- A populated cell of the summary map built from `logs` is exactly the
specification's group total. -/
theorem lookup2_foldl_total (logs : List LogEntry) (p u : String) (t : JSNum)
    (h : lookup2 (logs.foldl addLogToMap []) p u = some t) : t = sumMins logs p u := by
  rw [foldl_addLog_lookup2 p u logs []] at h
  by_cases hf : logs.filter (fun log => log.payPeriodStart == p && log.username == u) = []
  · rw [if_pos hf, lookup2_nil] at h
    cases h
  · rw [if_neg hf, lookup2_nil] at h
    simp only [Option.some.injEq] at h
    rw [← h, jsnSumFrom_eq]
    show jsnAdd (Option.getD none jsnZero) _ = sumMins logs p u
    rw [show Option.getD (none : Option JSNum) jsnZero = jsnZero from rfl, zero_jsnAdd]
    rfl

/-- A successful lookup locates its pair in the association list. -/
theorem getAssoc_mem {V : Type} :
    ∀ (m : List (String × V)) (k : String) (v : V),
      getAssoc m k = some v → (k, v) ∈ m := by
  intro m
  induction m with
  | nil => intro k v h; cases h
  | cons p rest ih =>
    intro k v h
    obtain ⟨ka, w⟩ := p
    simp only [getAssoc] at h
    by_cases hk : ka = k
    · rw [if_pos hk] at h
      cases h
      rw [← hk]
      exact List.mem_cons_self _ _
    · rw [if_neg hk] at h
      exact List.mem_cons_of_mem _ (ih k v h)

/-- Membership after a set: either an old pair or the new one. -/
theorem mem_setAssoc {V : Type} :
    ∀ (m : List (String × V)) (k : String) (v : V) (x : String × V),
      x ∈ setAssoc m k v → x ∈ m ∨ x = (k, v) := by
  intro m
  induction m with
  | nil =>
    intro k v x hx
    simp only [setAssoc] at hx
    rcases List.mem_cons.mp hx with h | h
    · exact Or.inr h
    · cases h
  | cons p rest ih =>
    intro k v x hx
    obtain ⟨ka, w⟩ := p
    simp only [setAssoc] at hx
    by_cases hk : ka = k
    · rw [if_pos hk] at hx
      rcases List.mem_cons.mp hx with h | h
      · exact Or.inr (by rw [h, hk])
      · exact Or.inl (List.mem_cons_of_mem _ h)
    · rw [if_neg hk] at hx
      rcases List.mem_cons.mp hx with h | h
      · exact Or.inl (h ▸ List.mem_cons_self _ _)
      · rcases ih k v x h with h2 | h2
        · exact Or.inl (List.mem_cons_of_mem _ h2)
        · exact Or.inr h2

/-- A key present after a set was present before, or is the set key. -/
theorem mem_keys_setAssoc {V : Type} (m : List (String × V)) (k key : String) (v : V)
    (h : key ∈ (setAssoc m k v).map Prod.fst) : key ∈ m.map Prod.fst ∨ key = k := by
  rw [List.mem_map] at h
  obtain ⟨x, hx, hfst⟩ := h
  rcases mem_setAssoc m k v x hx with h2 | h2
  · exact Or.inl (by rw [← hfst]; exact List.mem_map_of_mem Prod.fst h2)
  · rw [h2] at hfst
    exact Or.inr hfst.symm

/-- Setting a key preserves distinctness of keys. -/
theorem nodup_keys_setAssoc {V : Type} :
    ∀ (m : List (String × V)) (k : String) (v : V),
      (m.map Prod.fst).Nodup → ((setAssoc m k v).map Prod.fst).Nodup := by
  intro m
  induction m with
  | nil =>
    intro k v _
    simp [setAssoc]
  | cons p rest ih =>
    intro k v h
    obtain ⟨ka, w⟩ := p
    simp only [List.map_cons, List.nodup_cons] at h
    simp only [setAssoc]
    by_cases hk : ka = k
    · rw [if_pos hk]
      simp only [List.map_cons, List.nodup_cons]
      exact h
    · rw [if_neg hk]
      simp only [List.map_cons, List.nodup_cons]
      refine ⟨?_, ih k v h.2⟩
      intro hmem
      rcases mem_keys_setAssoc rest k ka v hmem with h2 | h2
      · exact h.1 h2
      · exact hk h2

/-- With distinct keys, membership determines the lookup result. -/
theorem getAssoc_of_mem_nodup {V : Type} :
    ∀ (m : List (String × V)) (k : String) (v : V),
      (m.map Prod.fst).Nodup → (k, v) ∈ m → getAssoc m k = some v := by
  intro m
  induction m with
  | nil => intro k v _ hm; cases hm
  | cons p rest ih =>
    intro k v hnd hm
    obtain ⟨ka, w⟩ := p
    simp only [List.map_cons, List.nodup_cons] at hnd
    simp only [getAssoc]
    rcases List.mem_cons.mp hm with h | h
    · cases h
      rw [if_pos rfl]
    · by_cases hk : ka = k
      · exfalso
        apply hnd.1
        rw [hk]
        exact List.mem_map_of_mem Prod.fst h
      · rw [if_neg hk]
        exact ih k v hnd.2 h

/-- One grouping step preserves distinctness of every inner map's keys. -/
theorem innerNodup_addLog (m : List (String × List (String × JSNum))) (log : LogEntry)
    (h : InnerNodup m) : InnerNodup (addLogToMap m log) := by
  intro pe hpe
  unfold addLogToMap at hpe
  rcases mem_setAssoc _ _ _ _ hpe with hin | heq
  · exact h pe hin
  · rw [heq]
    apply nodup_keys_setAssoc
    cases hm : getAssoc m log.payPeriodStart with
    | none => simp [hm]
    | some em =>
      have := h (log.payPeriodStart, em) (getAssoc_mem _ _ _ hm)
      simpa [hm] using this

/-- The summary map built by the grouping fold has distinct inner keys. -/
theorem innerNodup_foldl :
    ∀ (logs : List LogEntry) (m : List (String × List (String × JSNum))),
      InnerNodup m → InnerNodup (logs.foldl addLogToMap m) := by
  intro logs
  induction logs with
  | nil => intro m h; exact h
  | cons log rest ih =>
    intro m h
    rw [List.foldl_cons]
    exact ih (addLogToMap m log) (innerNodup_addLog m log h)

/-- Each emitted summary row reads off a populated cell of the summary map,
with `totalHours` and `totalPay` computed from that cell and the account's
rate. -/
theorem generateSummary_mem (logs : List LogEntry) (accounts : List Account)
    (row : SummaryRow) (h : row ∈ generateSummary logs accounts) :
    ∃ t, lookup2 (logs.foldl addLogToMap []) row.period row.user = some t ∧
      row.totalHours = formatHours t ∧
      row.totalPay =
        toFixed2Str (jsnMul (jsnDiv t (JSNum.ofInt 60)) (rateOf accounts row.user)) := by
  unfold generateSummary at h
  rw [List.mem_flatMap] at h
  obtain ⟨period, hper, hrow⟩ := h
  rw [List.mem_map] at hrow
  obtain ⟨⟨user, t⟩, hmem, hre⟩ := hrow
  subst hre
  refine ⟨t, ?_, rfl, rfl⟩
  show lookup2 (logs.foldl addLogToMap []) period user = some t
  unfold lookup2
  cases hga : getAssoc (logs.foldl addLogToMap []) period with
  | none =>
    rw [hga] at hmem
    cases hmem
  | some em =>
    rw [hga] at hmem
    have hnd : (em.map Prod.fst).Nodup :=
      innerNodup_foldl logs [] (fun pe hpe => by cases hpe) (period, em)
        (getAssoc_mem _ _ _ hga)
    exact getAssoc_of_mem_nodup em user t hnd hmem

/-- Lexicographic `≤` on strings is reflexive. -/
theorem strLeRel_refl (s : String) : StrLeRel s s := by
  show strLe s s = true
  unfold strLe
  induction s.data with
  | nil => rfl
  | cons c cs ih => simp [lexLe, ih]

/-- Rows produced block-by-block from a sorted key list are pairwise ordered
by their key. -/
theorem pairwise_flatMap_keyed {β : Type} (key : β → String) (f : String → List β)
    (hf : ∀ p, ∀ b ∈ f p, key b = p) :
    ∀ ps : List String, ps.Sorted StrLeRel →
      (ps.flatMap f).Pairwise (fun a b => StrLeRel (key a) (key b)) := by
  intro ps
  induction ps with
  | nil => intro _; simp
  | cons p rest ih =>
    intro hs
    rw [List.flatMap_cons, List.pairwise_append]
    refine ⟨?_, ih hs.tail, ?_⟩
    · apply List.pairwise_of_forall_mem_list
      intro a ha b hb
      rw [hf p a ha, hf p b hb]
      exact strLeRel_refl p
    · intro a ha b hb
      rw [List.mem_flatMap] at hb
      obtain ⟨q, hq, hbq⟩ := hb
      rw [hf p a ha, hf q b hbq]
      exact (List.sorted_cons.mp hs).1 q hq

/-- The summary rows are ordered by ascending (lexicographic) period. -/
theorem generateSummary_sorted (logs : List LogEntry) (accounts : List Account) :
    (generateSummary logs accounts).Pairwise (fun r1 r2 => StrLeRel r1.period r2.period) := by
  show List.Pairwise (fun r1 r2 => StrLeRel r1.period r2.period)
    ((List.insertionSort StrLeRel ((List.foldl addLogToMap [] logs).map (fun q => q.1))).flatMap
      (fun period =>
        ((getAssoc (List.foldl addLogToMap [] logs) period).getD []).map
          (fun q => SummaryRow.mk period q.1 (formatHours q.2)
            (toFixed2Str (jsnMul (jsnDiv q.2 (JSNum.ofInt 60)) (rateOf accounts q.1))))))
  have hf : ∀ p : String, ∀ b ∈ ((getAssoc (List.foldl addLogToMap [] logs) p).getD []).map
      (fun q => SummaryRow.mk p q.1 (formatHours q.2)
        (toFixed2Str (jsnMul (jsnDiv q.2 (JSNum.ofInt 60)) (rateOf accounts q.1)))),
      b.period = p := by
    intro p b hb
    rw [List.mem_map] at hb
    obtain ⟨pr, _, hpr⟩ := hb
    rw [← hpr]
  exact pairwise_flatMap_keyed (fun r => r.period)
    (fun period =>
      ((getAssoc (List.foldl addLogToMap [] logs) period).getD []).map
        (fun q => SummaryRow.mk period q.1 (formatHours q.2)
          (toFixed2Str (jsnMul (jsnDiv q.2 (JSNum.ofInt 60)) (rateOf accounts q.1)))))
    hf _ (List.sorted_insertionSort _ _)

/-- C3 (amended): every summary row's `totalHours` is the group's summed
`minutesWorked` divided by 60 and rounded to two decimals, its `totalPay` is
the group's UNROUNDED hours times the account's rate (0 when the account is
absent or its rate unset) rounded to two decimals, and the rows are ordered
by ascending lexicographic period. -/
theorem generateSummary_correct (logs : List LogEntry) (accounts : List Account) :
    (∀ row ∈ generateSummary logs accounts,
      row.totalHours = formatHours (sumMins logs row.period row.user) ∧
      row.totalPay = toFixed2Str (jsnMul (jsnDiv (sumMins logs row.period row.user)
        (JSNum.ofInt 60)) (rateOf accounts row.user))) ∧
    (generateSummary logs accounts).Pairwise (fun r1 r2 => StrLeRel r1.period r2.period) := by
  refine ⟨?_, generateSummary_sorted logs accounts⟩
  intro row h
  obtain ⟨t, hl, hth, htp⟩ := generateSummary_mem logs accounts row h
  have ht : t = sumMins logs row.period row.user :=
    lookup2_foldl_total logs row.period row.user t hl
  rw [← ht]
  exact ⟨hth, htp⟩

/-- C3 counterexample: for a 50-minute group at rate 3 the produced row has
`totalPay = "2.50"` (unrounded hours times rate), while multiplying the
2-decimal-rounded hours (0.83) by the rate and rounding gives `"2.49"` — the
claim's `totalPay` from rounded hours does not match the code. -/
theorem generateSummary_pay_cex :
    (generateSummary sampleLogs sampleAccounts).map (fun r => r.totalPay) = ["2.50"] ∧
    (generateSummary sampleLogs sampleAccounts).map (fun r => r.totalHours) = ["0.83"] ∧
    toFixed2Str (jsnMul (toFixed2Num (jsnDiv (sumMins sampleLogs "2024-03-01" "u")
      (JSNum.ofInt 60))) (rateOf sampleAccounts "u")) = "2.49" ∧
    ("2.50" : String) ≠ "2.49" := by decide

/-- Witness for `generateSummary_correct` at the sample data. -/
theorem generateSummary_correct_witness :
    (SummaryRow.mk "2024-03-01" "u" "0.83" "2.50").totalHours =
      formatHours (sumMins sampleLogs "2024-03-01" "u") ∧
    (SummaryRow.mk "2024-03-01" "u" "0.83" "2.50").totalPay =
      toFixed2Str (jsnMul (jsnDiv (sumMins sampleLogs "2024-03-01" "u") (JSNum.ofInt 60))
        (rateOf sampleAccounts "u")) :=
  (generateSummary_correct sampleLogs sampleAccounts).1
    (SummaryRow.mk "2024-03-01" "u" "0.83" "2.50") (by decide)
